import Mathlib

/- A shallow embedding of sdk/nodejs/runtime/native/closure.cc, the native closure
serializer of the Pulumi Fabric SDK (Node.js 6.10 / v8).  JavaScript values that
cross the native boundary are modelled by an inductive type; v8 exceptions are
modelled by an error monad: ThrowException leaves a pending exception on the
isolate, which makes every subsequent v8 callback invocation return an empty
handle, so the pending error propagates to the top and no closure is produced —
this is modelled as an early error return.  The engine-internal scope-chain walk
(v8 internal Context Lookup), which lives inside v8 rather than in this file's
source, is modelled from the spec as an explicit walk over a list of frames. -/

namespace nativeruntime

/-- JavaScript values as seen through the v8 boundary.  Objects and functions,
beyond the arrays and strings the serializer itself inspects, are kept as
opaque identities. -/
inductive JSVal where
  | undef
  | nul
  | boolean (b : Bool)
  | num (n : Int)
  | str (s : String)
  | arr (elems : List JSVal)
  | objRef (id : Nat)
  | fn (id : Nat)

/-- Errors surfaced across the native boundary.  Each constructor corresponds to
one ThrowException site in closure.cc, except callbackThrew, which stands for an
exception raised inside a JavaScript callback (free-variables analyzer or
env-entry serializer) and propagated unmodified. -/
inductive SerErr where
  | missingFunction
  | functionNotFunction
  | missingFreeVars
  | freeVarsNotFunction
  | missingEnvEntrySerializer
  | envEntrySerializerNotFunction
  | missingEnvEntryCache
  | nonExpression
  | freeVarsNotArray
  | missingVariable (buffer : List Nat × Bool)
  | callbackThrew
  deriving DecidableEq

/-- UTF-8 encoding of one character (RFC 3629), byte values as naturals, exactly
as v8 String WriteUtf8 emits them. -/
def utf8CharBytes (c : Char) : List Nat :=
  let n := c.toNat
  if n < 128 then [n]
  else if n < 2048 then [192 + n / 64, 128 + n % 64]
  else if n < 65536 then [224 + n / 4096, 128 + n / 64 % 64, 128 + n % 64]
  else [240 + n / 262144, 128 + n / 4096 % 64, 128 + n / 64 % 64, 128 + n % 64]

/-- UTF-8 byte sequence of a string. -/
def utf8Bytes (s : String) : List Nat :=
  (s.data.map utf8CharBytes).flatten

/-- Models the copy `name->WriteUtf8(namestr, 255)` into `char namestr[255]` at
closure.cc lines 71-72: WriteUtf8 with an explicit capacity writes at most that
many bytes and appends the NUL terminator only when it fits.  The result is the
buffer contents together with a flag telling whether the buffer was
NUL-terminated.  (v8 additionally refuses to split a multi-byte character at
the capacity boundary; the truncation point may therefore fall up to three
bytes earlier than the plain take below, which does not affect the properties
proved here: full copy below capacity, truncated and unterminated above it.) -/
def writeUtf8Cap (s : String) (cap : Nat) : List Nat × Bool :=
  let bs := utf8Bytes s
  if bs.length < cap then (bs ++ [0], true) else (bs.take cap, false)

/-- One context of the lexical scope chain: bindings held in the context's slot
array (looked up by name through the scope info, yielding a slot index), and
bindings exposed as named properties on the context's extension object (eval or
catch-introduced scopes). -/
structure Frame where
  slots : List (String × JSVal)
  extension : List (String × JSVal)

/-- Outcome of the v8 internal Context Lookup: null (nothing found anywhere in
the chain), a context plus slot index, a value bound on a context extension
object, or some other unexpected object. -/
inductive V8LookupRes where
  | nullRes
  | foundContext (slots : List JSVal) (index : Nat)
  | foundJSObject (v : JSVal)
  | foundOther

/-- Index of the first slot bound to the given name in a context's slot list. -/
def slotIdx (name : String) : List (String × JSVal) → Option Nat
  | [] => none
  | p :: rest => if p.1 = name then some 0 else (slotIdx name rest).map (· + 1)

/-- Modelled from the spec: the chain walk performed by v8's internal
`Context::Lookup` with FOLLOW_CHAINS (closure.cc lines 49-53 call into v8; the
walk itself is engine code, not part of this file's source).  Per spec section
4.1 it walks the chain from the innermost context outward, within each context
trying the slot-array shape first and falling back to the extension-object
shape, and returns the first binding found. -/
def chainLookup (name : String) : List Frame → V8LookupRes
  | [] => .nullRes
  | f :: rest =>
    match slotIdx name f.slots with
    | some i => .foundContext (f.slots.map Prod.snd) i
    | none =>
      match f.extension.find? (fun p => p.1 = name) with
      | some p => .foundJSObject p.2
      | none => chainLookup name rest

/-- Embeds `Lookup` (closure.cc lines 41-78): dispatch on the result of the
internal chain lookup.  A context result yields the slot contents
(`FixedArray::get(..., index, ...)`), a JSObject result is returned as-is, and
anything else (null or an unexpected object) throws
"Unexpected missing variable in closure environment: " followed by the name as
copied through the fixed 255-byte stack buffer. -/
def Lookup (chain : List Frame) (name : String) : Except SerErr JSVal :=
  match chainLookup name chain with
  | .foundContext slots i => .ok (slots.getD i JSVal.undef)
  | .foundJSObject v => .ok v
  | .nullRes => .error (.missingVariable (writeUtf8Cap name 255))
  | .foundOther => .error (.missingVariable (writeUtf8Cap name 255))

/-- Models `code.compare(0, prefix.length(), prefix) == 0` on std::string: the
prefix test used throughout SerializeFunctionCode. -/
def strHasPrefix (p s : String) : Bool := List.isPrefixOf p.data s.data

/-- Wrapping performed on the function's toString text (closure.cc lines
95-111): text beginning with an open parenthesis or with the keyword
`function` is wrapped in parentheses; any other text is assumed to be v8's
method-shorthand rendering and is rewritten as a named function expression
wrapped in parentheses. -/
def wrapCode (code : String) : String :=
  if strHasPrefix "(" code || strHasPrefix "function" code then
    "(" ++ code ++ ")"
  else
    "(function " ++ code ++ ")"

/-- Embeds `SerializeFunctionCode` (closure.cc lines 80-114): obtain the code
via toString, throw a TypeError for the non-expression stand-in prefix
"[Function:", otherwise wrap the text.  In the source the throw is not followed
by a return, but the pending exception makes the very next v8 callback call in
SerializeFunction return empty, so no closure is ever produced on that path;
the model returns the error immediately. -/
def serializeFunctionCode (code : String) : Except SerErr String :=
  if strHasPrefix "[Function:" code then .error .nonExpression
  else .ok (wrapCode code)

/-- Tests `Value::IsArray`. -/
def isArr : JSVal → Bool
  | .arr _ => true
  | _ => false

/-- Models `Local<Array>::Cast` followed by indexed `Get`: the cast is unchecked
in release v8 builds, so on a non-array the source's behavior is undefined; the
model makes it total with an empty element list, which means the subsequent
`Get` calls yield undefined.  No exception is raised on this path (the element
validation loop at closure.cc lines 142-154 is commented out). -/
def asElems : JSVal → List JSVal
  | .arr es => es
  | _ => []

/-- Models `Local<String>::Cast` followed by use as a string: the cast is
unchecked in release v8 builds, so on a non-string the source's behavior is
undefined; the model makes it total with the empty string.  No exception is
raised on this path. -/
def forceStr : JSVal → String
  | .str s => s
  | _ => ""

/-- JavaScript object property write, `environment->Set(freevar, envEntry)`:
overwrite in place when the key is already present, append otherwise. -/
def objSet : List (String × JSVal) → String → JSVal → List (String × JSVal)
  | [], k, v => [(k, v)]
  | p :: rest, k, v => if p.1 = k then (k, v) :: rest else p :: objSet rest k v

/-- The closure record (closure.cc lines 31-38): code, runtime tag, environment
object. -/
structure Closure where
  code : String
  runtime : String
  environment : List (String × JSVal)

/-- Embeds `CreateClosure` (closure.cc lines 31-38). -/
def CreateClosure (code : String) (environment : List (String × JSVal)) : Closure :=
  { code := code, runtime := "nodejs", environment := environment }

/-- Embeds the free-variable loop of `SerializeFunction` (closure.cc lines
159-183): for each element of the analyzer's result, read the name (index 0)
and the props (index 1), look the name up in the lexical chain (a thrown error
bails out eagerly), invoke the env-entry serializer callback (an empty result
means it threw; bail out), and store the entry into the environment object. -/
def processFreeVars (chain : List Frame) (envEntryFunc : JSVal → JSVal → Option JSVal) :
    List JSVal → List (String × JSVal) → Except SerErr (List (String × JSVal))
  | [], env => .ok env
  | e :: rest, env =>
    let pair := asElems e
    let freevar := forceStr (pair.getD 0 JSVal.undef)
    let props := pair.getD 1 JSVal.undef
    match Lookup chain freevar with
    | .error err => .error err
    | .ok v =>
      match envEntryFunc v props with
      | none => .error .callbackThrew
      | some entry => processFreeVars chain envEntryFunc rest (objSet env freevar entry)

/-- Embeds `SerializeFunction` (closure.cc lines 117-187).  The function's
captured lexical context is `chain`; its toString text is `source`.  The two
JavaScript callbacks are modelled as Lean functions returning `none` when they
throw.  Steps: extract and wrap the code, invoke the free-variables analyzer on
the wrapped code (empty result: it threw, propagate; non-array result:
TypeError "Free variables return expected to be an Array"), run the
free-variable loop, and assemble the closure record. -/
def serializeFunction (source : String) (chain : List Frame)
    (freeVarsFunc : String → Option JSVal)
    (envEntryFunc : JSVal → JSVal → Option JSVal) : Except SerErr Closure :=
  match serializeFunctionCode source with
  | .error e => .error e
  | .ok code =>
    match freeVarsFunc code with
    | none => .error .callbackThrew
    | some ret =>
      if isArr ret then
        match processFreeVars chain envEntryFunc (asElems ret) [] with
        | .error e => .error e
        | .ok env => .ok (CreateClosure code env)
      else .error .freeVarsNotArray

/-- Tests `Value::IsUndefined`. -/
def isUndefV : JSVal → Bool
  | .undef => true
  | _ => false

/-- Tests `Value::IsFunction`. -/
def isFuncV : JSVal → Bool
  | .fn _ => true
  | _ => false

/-- Embeds the argument validation of `SerializeClosure` (closure.cc lines
192-237), in source order: the first argument must be present, defined and a
Function; the second (free-variables calculator) likewise; the third (env-entry
serializer) likewise; the fourth (env-entry cache) must be present and defined
(its cast to Object is unchecked, so no type test is performed on it).  Reading
an argument past `args.Length()` yields undefined in v8, modelled by `getD`
with the undefined default. -/
def serializeClosureCheck (args : List JSVal) : Option SerErr :=
  if args.length < 1 ∨ isUndefV (args.getD 0 JSVal.undef) = true then
    some .missingFunction
  else if isFuncV (args.getD 0 JSVal.undef) = false then
    some .functionNotFunction
  else if args.length < 2 ∨ isUndefV (args.getD 1 JSVal.undef) = true then
    some .missingFreeVars
  else if isFuncV (args.getD 1 JSVal.undef) = false then
    some .freeVarsNotFunction
  else if args.length < 3 ∨ isUndefV (args.getD 2 JSVal.undef) = true then
    some .missingEnvEntrySerializer
  else if isFuncV (args.getD 2 JSVal.undef) = false then
    some .envEntrySerializerNotFunction
  else if args.length < 4 ∨ isUndefV (args.getD 3 JSVal.undef) = true then
    some .missingEnvEntryCache
  else
    none

/-- Embeds `SerializeClosure` (closure.cc lines 192-244): validate the
arguments, then run `SerializeFunction` and return its result.  The callback
arguments inside `args` are opaque function references; their behaviors are
supplied separately as Lean functions, which the validation never consults —
validation happens before any scope, code, or value work. -/
def serializeClosure (args : List JSVal) (source : String) (chain : List Frame)
    (freeVarsFunc : String → Option JSVal)
    (envEntryFunc : JSVal → JSVal → Option JSVal) : Except SerErr Closure :=
  match serializeClosureCheck args with
  | some e => .error e
  | none => serializeFunction source chain freeVarsFunc envEntryFunc

/-- Modelled from the spec (section 4.3): the analyzer's result is well-shaped
when it is a sequence whose elements are identifier strings, possibly paired
with resolution metadata (a pair whose first component is the identifier
string); anything else — a non-sequence, or a sequence with a non-string
identifier element — is malformed. -/
def specAnalyzerMalformed : JSVal → Bool
  | .arr es => es.any (fun e =>
      match e with
      | .str _ => false
      | .arr (JSVal.str _ :: _) => false
      | _ => true)
  | _ => true

namespace EnvSer

/- The recursive environment serializer and its identity cache are implemented
on the JavaScript side of the SDK and handed to the native code as the
envEntryFunc callback and the envEntryCache object (closure.cc lines 176-183
and 231-237 only forward them); that JavaScript source is not part of this
file's source tree, so the serializer is modelled here from the spec
(sections 4.4 and 4.5). -/

/-- Modelled from the spec: a captured value, reduced to the cases the
cycle-breaking argument is about — a primitive, or a function identified by
its value identity. -/
inductive Val where
  | prim (k : Int)
  | func (id : Nat)
  deriving DecidableEq

/-- Modelled from the spec: an environment entry of the serialized graph — a
primitive entry, a reference resolving to the identity cache's entry for a
function already being serialized, or a full Closure entry for a function
identity together with its serialized environment. -/
inductive Entry where
  | prim (k : Int)
  | ref (id : Nat)
  | closure (id : Nat) (env : List (String × Entry))

/-- Modelled from the spec: the world of captured functions — each function
identity's environment, as the free-variable names paired with the values the
scope resolver yields for them. -/
def World := Nat → List (String × Val)

/-- Modelled from the spec (section 4.4, case 4, and section 4.5): serialize
one function environment, threading the identity cache (the list of function
identities whose serialization has started).  A primitive entry recurses into
the rest of the list.  A function-valued entry is looked up in the cache by
identity first: on a hit the cached (possibly still in-progress) entry is
referenced; on a miss the identity is inserted into the cache as a placeholder
before recursing into that function's own environment, and the completed
Closure entry is produced.  The fuel argument bounds only the nesting depth of
closure-builder recursions — it is consumed exactly when a new identity enters
the cache, so any fuel at least the number of distinct captured function
identities suffices. -/
def encodeEnv (w : World) : Nat → List Nat → List (String × Val) →
    Option (List (String × Entry) × List Nat)
  | _, cache, [] => some ([], cache)
  | fuel, cache, (n, Val.prim k) :: rest =>
    match encodeEnv w fuel cache rest with
    | none => none
    | some (es, c) => some ((n, Entry.prim k) :: es, c)
  | 0, cache, (n, Val.func id) :: rest =>
    if id ∈ cache then
      match encodeEnv w 0 cache rest with
      | none => none
      | some (es, c) => some ((n, Entry.ref id) :: es, c)
    else none
  | fuel' + 1, cache, (n, Val.func id) :: rest =>
    if id ∈ cache then
      match encodeEnv w (fuel' + 1) cache rest with
      | none => none
      | some (es, c) => some ((n, Entry.ref id) :: es, c)
    else
      match encodeEnv w fuel' (id :: cache) (w id) with
      | none => none
      | some (subEs, c1) =>
        match encodeEnv w (fuel' + 1) c1 rest with
        | none => none
        | some (es, c) => some ((n, Entry.closure id subEs) :: es, c)
termination_by fuel _ l => (fuel, l.length)

/-- Modelled from the spec (section 4.4, case 4): serialize one captured
function — a cache hit resolves to the cached entry, a miss inserts the
placeholder and builds the full Closure entry from the function's
environment. -/
def serializeFunc (w : World) (fuel : Nat) (cache : List Nat) (id : Nat) :
    Option (Entry × List Nat) :=
  if id ∈ cache then some (.ref id, cache)
  else
    match fuel with
    | 0 => none
    | fuel' + 1 =>
      match encodeEnv w fuel' (id :: cache) (w id) with
      | none => none
      | some (es, c) => some (.closure id es, c)

/-- Function identities referenced by an environment. -/
def funcIds (l : List (String × Val)) : List Nat :=
  l.filterMap (fun p =>
    match p.2 with
    | Val.func i => some i
    | _ => none)

mutual

/-- Number of full Closure entries for the identity `j` in an entry tree. -/
def countC (j : Nat) : Entry → Nat
  | .prim _ => 0
  | .ref _ => 0
  | .closure i es => (if i = j then 1 else 0) + countEnv j es

/-- Number of full Closure entries for the identity `j` in a serialized
environment. -/
def countEnv (j : Nat) : List (String × Entry) → Nat
  | [] => 0
  | (_, e) :: rest => countC j e + countEnv j rest

end

end EnvSer

/-- Analyzer result elements in the shape the serializer consumes: one pair
per free variable, the identifier string first, the resolution metadata
second. -/
def wfPairs (names : List (String × JSVal)) : List JSVal :=
  names.map (fun np => JSVal.arr [JSVal.str np.1, np.2])

/-- Concrete env-entry serializer callback: encodes every value as itself and
never throws. -/
def cEnvEntryId : JSVal → JSVal → Option JSVal := fun v _ => some v

/-- Concrete free-variables analyzer: reports the single free variable x with
no metadata. -/
def cAnalyzerX : String → Option JSVal :=
  fun _ => some (JSVal.arr [JSVal.arr [JSVal.str "x", JSVal.undef]])

/-- Concrete free-variables analyzer whose result is an Array containing a
non-string element. -/
def cAnalyzerBadElem : String → Option JSVal := fun _ => some (JSVal.arr [JSVal.num 5])

/-- Concrete free-variables analyzer whose result is not an Array. -/
def cAnalyzerNotArr : String → Option JSVal := fun _ => some (JSVal.str "x")

/-- Concrete scope frame binding a in a context slot and b on the context
extension object. -/
def cFrameAB : Frame := ⟨[("a", JSVal.num 1)], [("b", JSVal.num 2)]⟩

/-- Concrete scope frame binding x to 42 in a context slot. -/
def cFrameX : Frame := ⟨[("x", JSVal.num 42)], []⟩

/-- A variable name whose UTF-8 encoding is 300 bytes long, exceeding the
255-byte stack buffer. -/
def longName : String := String.mk (List.replicate 300 'x')

/-- Concrete world of two mutually recursive captured functions: function 0
closes over function 1 under the name g, and function 1 closes over function 0
under the name f. -/
def wAB : EnvSer.World := fun id =>
  if id = 0 then [("g", EnvSer.Val.func 1)]
  else if id = 1 then [("f", EnvSer.Val.func 0)]
  else []

/- Helper lemmas. -/

theorem serializeFunctionCode_of_ok (c : String)
    (h : strHasPrefix "[Function:" c = false) :
    serializeFunctionCode c = .ok (wrapCode c) := by
  simp [serializeFunctionCode, h]

theorem Lookup_of_nullRes (chain : List Frame) (name : String)
    (h : chainLookup name chain = .nullRes) :
    Lookup chain name = .error (.missingVariable (writeUtf8Cap name 255)) := by
  unfold Lookup
  rw [h]

theorem Lookup_error_shape (chain : List Frame) (name : String) (e : SerErr)
    (h : Lookup chain name = .error e) :
    e = .missingVariable (writeUtf8Cap name 255) := by
  unfold Lookup at h
  cases hc : chainLookup name chain <;> rw [hc] at h <;> simp_all

theorem processFreeVars_ne_arrayErr (chain : List Frame)
    (ee : JSVal → JSVal → Option JSVal) :
    ∀ (l : List JSVal) (env : List (String × JSVal)),
    processFreeVars chain ee l env ≠ .error SerErr.freeVarsNotArray := by
  intro l
  induction l with
  | nil => intro env h; simp [processFreeVars] at h
  | cons e rest ih =>
    intro env h
    rw [processFreeVars] at h
    split at h
    · rename_i err heq
      have := Lookup_error_shape _ _ _ heq
      subst this
      simp at h
    · split at h
      · simp at h
      · exact ih _ h

theorem objSet_append_of_not_mem (env : List (String × JSVal)) (n : String) (v : JSVal)
    (h : n ∉ env.map Prod.fst) :
    objSet env n v = env ++ [(n, v)] := by
  induction env with
  | nil => rfl
  | cons p rest ih =>
    simp only [List.map_cons, List.mem_cons] at h
    push_neg at h
    rw [objSet, if_neg (fun hp => h.1 hp.symm), ih h.2]
    rfl

theorem slotIdx_some (name : String) :
    ∀ (slots : List (String × JSVal)) (i : Nat),
    slotIdx name slots = some i → ∃ v, slots[i]? = some (name, v) := by
  intro slots
  induction slots with
  | nil => intro i h; simp [slotIdx] at h
  | cons p rest ih =>
    intro i h
    by_cases hp : p.1 = name
    · rw [slotIdx, if_pos hp] at h
      cases h
      exact ⟨p.2, by simp [← hp]⟩
    · rw [slotIdx, if_neg hp] at h
      cases hs : slotIdx name rest with
      | none => rw [hs] at h; simp at h
      | some j =>
        rw [hs] at h
        simp only [Option.map_some', Option.some.injEq] at h
        obtain ⟨v, hv⟩ := ih j hs
        exact ⟨v, by simp [← h, hv]⟩

theorem mapSnd_getD (slots : List (String × JSVal)) (i : Nat) (name : String) (v : JSVal)
    (h : slots[i]? = some (name, v)) :
    (slots.map Prod.snd).getD i JSVal.undef = v := by
  induction slots generalizing i with
  | nil => simp at h
  | cons p rest ih =>
    cases i with
    | zero =>
      simp only [List.getElem?_cons_zero, Option.some.injEq] at h
      subst h
      rfl
    | succ j =>
      simp only [List.getElem?_cons_succ] at h
      simpa [List.getD] using ih j h

theorem isFuncV_not_undef {v : JSVal} (h : isFuncV v = true) : isUndefV v = false := by
  cases v <;> simp_all [isFuncV, isUndefV]

theorem getD_undef_of_len_le {args : List JSVal} {k : Nat} (h : args.length ≤ k) :
    args.getD k JSVal.undef = JSVal.undef := by
  simp [List.getD, List.getElem?_eq_none h]

theorem len_gt_of_not_undef {args : List JSVal} {k : Nat}
    (h : isUndefV (args.getD k JSVal.undef) = false) : k < args.length := by
  by_contra hk
  rw [getD_undef_of_len_le (Nat.le_of_not_lt hk)] at h
  simp [isUndefV] at h

namespace EnvSer

@[simp] theorem funcIds_nil : funcIds [] = [] := rfl

@[simp] theorem funcIds_cons_prim (n : String) (k : Int) (rest : List (String × Val)) :
    funcIds ((n, Val.prim k) :: rest) = funcIds rest := rfl

@[simp] theorem funcIds_cons_func (n : String) (id : Nat) (rest : List (String × Val)) :
    funcIds ((n, Val.func id) :: rest) = id :: funcIds rest := rfl

/-- When every function identity referenced by the environment is already in
the identity cache, encoding succeeds with any fuel, leaves the cache
unchanged, and produces only references — no full Closure entry at all. -/
theorem encodeEnv_all_cached (w : World) :
    ∀ (l : List (String × Val)) (fuel : Nat) (cache : List Nat),
    (∀ i ∈ funcIds l, i ∈ cache) →
    ∃ es, encodeEnv w fuel cache l = some (es, cache) ∧ ∀ j, countEnv j es = 0 := by
  intro l
  induction l with
  | nil =>
    intro fuel cache _
    refine ⟨[], ?_, fun j => rfl⟩
    simp [encodeEnv]
  | cons p rest ih =>
    intro fuel cache h
    obtain ⟨n, v⟩ := p
    cases v with
    | prim k =>
      obtain ⟨es, hrest, hcnt⟩ := ih fuel cache (by simpa using h)
      refine ⟨(n, Entry.prim k) :: es, ?_, ?_⟩
      · cases fuel <;> simp [encodeEnv, hrest]
      · intro j
        simp [countEnv, countC, hcnt j]
    | func id =>
      have hid : id ∈ cache := h id (by simp)
      obtain ⟨es, hrest, hcnt⟩ := ih fuel cache (fun i hi => h i (by simp [hi]))
      refine ⟨(n, Entry.ref id) :: es, ?_, ?_⟩
      · cases fuel <;> simp [encodeEnv, hid, hrest]
      · intro j
        simp [countEnv, countC, hcnt j]

/-- Encoding an environment that references only the identities a (already
cached) and b (not yet cached) succeeds with one unit of fuel to spare, emits
no Closure entry for a, and emits exactly one Closure entry for b when b is
referenced at all: the first reference to b inserts the placeholder and builds
the full entry, every later reference resolves to the cache. -/
theorem encodeEnv_two_ids (w : World) (a b : Nat) (hab : a ≠ b)
    (hwb : ∀ i ∈ funcIds (w b), i = a ∨ i = b) :
    ∀ (l : List (String × Val)) (fuel : Nat) (cache : List Nat),
    a ∈ cache → b ∉ cache →
    (∀ i ∈ funcIds l, i = a ∨ i = b) →
    ∃ es c, encodeEnv w (fuel + 1) cache l = some (es, c) ∧
      countEnv a es = 0 ∧
      countEnv b es = (if b ∈ funcIds l then 1 else 0) := by
  intro l
  induction l with
  | nil =>
    intro fuel cache _ _ _
    exact ⟨[], cache, by simp [encodeEnv], rfl, by simp [countEnv]⟩
  | cons p rest ih =>
    intro fuel cache hac hbc hl
    obtain ⟨n, v⟩ := p
    cases v with
    | prim k =>
      obtain ⟨es, c, hrest, hca, hcb⟩ := ih fuel cache hac hbc (by simpa using hl)
      refine ⟨(n, Entry.prim k) :: es, c, ?_, ?_, ?_⟩
      · simp [encodeEnv, hrest]
      · simp [countEnv, countC, hca]
      · simpa [countEnv, countC] using hcb
    | func id =>
      rcases hl id (by simp) with hia | hib
      · subst hia
        obtain ⟨es, c, hrest, hca, hcb⟩ :=
          ih fuel cache hac hbc (fun i hi => hl i (by simp [hi]))
        refine ⟨(n, Entry.ref id) :: es, c, ?_, ?_, ?_⟩
        · simp [encodeEnv, hac, hrest]
        · simp [countEnv, countC, hca]
        · simp [countEnv, countC, hcb, Ne.symm hab]
      · subst hib
        obtain ⟨subEs, hsub, hsubcnt⟩ :=
          encodeEnv_all_cached w (w id) fuel (id :: cache)
            (fun i hi => by rcases hwb i hi with h1 | h1 <;> simp [h1, hac])
        obtain ⟨esRest, hrest, hrestcnt⟩ :=
          encodeEnv_all_cached w rest (fuel + 1) (id :: cache)
            (fun i hi => by rcases hl i (by simp [hi]) with h1 | h1 <;> simp [h1, hac])
        refine ⟨(n, Entry.closure id subEs) :: esRest, id :: cache, ?_, ?_, ?_⟩
        · simp [encodeEnv, hbc, hsub, hrest]
        · simp [countEnv, countC, Ne.symm hab, hsubcnt a, hrestcnt a]
        · simp [countEnv, countC, hsubcnt id, hrestcnt id]

/-- C4: for every pair of captured functions a and b whose environments
reference each other (and reference nothing beyond the two of them),
serialization terminates — fuel 2, one unit per distinct identity, suffices —
because the placeholder cache entry keyed by value identity is inserted before
recursing, and the resulting serialized graph contains exactly one Closure
entry per distinct function identity, later references resolving to the
cached entry. -/
theorem serializeFunc_mutual_recursion (w : World) (a b : Nat) (hab : a ≠ b)
    (hwa : ∀ i ∈ funcIds (w a), i = a ∨ i = b)
    (hwb : ∀ i ∈ funcIds (w b), i = a ∨ i = b)
    (hrefAB : b ∈ funcIds (w a)) (hrefBA : a ∈ funcIds (w b)) :
    ∃ es c, serializeFunc w 2 [] a = some (Entry.closure a es, c) ∧
      countC a (Entry.closure a es) = 1 ∧
      countC b (Entry.closure a es) = 1 := by
  obtain ⟨es, c, henc, hca, hcb⟩ :=
    encodeEnv_two_ids w a b hab hwb (w a) 0 [a] (by simp) (by simp [Ne.symm hab]) hwa
  simp only [Nat.zero_add] at henc
  refine ⟨es, c, ?_, ?_, ?_⟩
  · have hstep : serializeFunc w 2 [] a =
        match encodeEnv w 1 [a] (w a) with
        | none => none
        | some (es, c) => some (Entry.closure a es, c) := by
      simp [serializeFunc]
    rw [hstep, henc]
  · simp [countC, hca]
  · simp [countC, hab, hcb, hrefAB]

/-- C4 witness: the concrete two-function world wAB, in which function 0 and
function 1 capture each other. -/
theorem serializeFunc_mutual_recursion_witness :
    ∃ es c, serializeFunc wAB 2 [] 0 = some (Entry.closure 0 es, c) ∧
      countC 0 (Entry.closure 0 es) = 1 ∧
      countC 1 (Entry.closure 0 es) = 1 := by
  refine serializeFunc_mutual_recursion wAB 0 1 (by omega) ?_ ?_ ?_ ?_
  · intro i hi
    simp [wAB] at hi
    omega
  · intro i hi
    simp [wAB] at hi
    omega
  · simp [wAB]
  · simp [wAB]

end EnvSer

/-- C7: within the innermost frame of the captured lexical scope chain, a
binding held in the context's slot array is returned as the slot contents, a
binding exposed as a named property on the context's extension object is
returned as that binding's value when the slot form misses, and a frame
binding the name in neither shape defers to the rest of the chain. -/
theorem Lookup_binding_shapes (f : Frame) (rest : List Frame) (name : String) :
    (∀ (i : Nat) (v : JSVal), slotIdx name f.slots = some i →
        f.slots[i]? = some (name, v) →
        Lookup (f :: rest) name = .ok v) ∧
    (∀ v : JSVal, slotIdx name f.slots = none →
        f.extension.find? (fun p => p.1 = name) = some (name, v) →
        Lookup (f :: rest) name = .ok v) ∧
    (slotIdx name f.slots = none →
        f.extension.find? (fun p => p.1 = name) = none →
        Lookup (f :: rest) name = Lookup rest name) := by
  refine ⟨?_, ?_, ?_⟩
  · intro i v hi hv
    unfold Lookup chainLookup
    rw [hi]
    exact congrArg Except.ok (mapSnd_getD _ _ _ _ hv)
  · intro v hn hf
    unfold Lookup chainLookup
    rw [hn, hf]
  · intro hn hf
    have hchain : chainLookup name (f :: rest) = chainLookup name rest := by
      simp only [chainLookup, hn, hf]
    unfold Lookup
    rw [hchain]

/-- C7 witness: a concrete frame binding a in a slot and b on the extension
object. -/
theorem Lookup_binding_shapes_witness :
    Lookup [cFrameAB] "a" = .ok (JSVal.num 1) ∧
    Lookup [cFrameAB] "b" = .ok (JSVal.num 2) :=
  ⟨(Lookup_binding_shapes cFrameAB [] "a").1 0 (JSVal.num 1) rfl rfl,
   (Lookup_binding_shapes cFrameAB [] "b").2.1 (JSVal.num 2) rfl rfl⟩

/-- C10: the missing-variable error message copies the identifier through a
fixed 255-byte stack buffer: a name whose UTF-8 encoding is shorter than 255
bytes is copied whole and NUL-terminated, while a longer name is truncated to
the buffer size with no NUL terminator written; the failing Lookup embeds
exactly this buffer in the error it throws. -/
theorem lookup_error_name_truncation (chain : List Frame) (name : String) :
    ((utf8Bytes name).length < 255 →
        writeUtf8Cap name 255 = (utf8Bytes name ++ [0], true)) ∧
    (255 < (utf8Bytes name).length →
        (writeUtf8Cap name 255).1.length = 255 ∧
        (writeUtf8Cap name 255).1 ≠ utf8Bytes name ∧
        (writeUtf8Cap name 255).2 = false) ∧
    (chainLookup name chain = .nullRes →
        Lookup chain name = .error (.missingVariable (writeUtf8Cap name 255))) := by
  refine ⟨?_, ?_, ?_⟩
  · intro h
    simp [writeUtf8Cap, h]
  · intro h
    have hnot : ¬ (utf8Bytes name).length < 255 := by omega
    refine ⟨?_, ?_, ?_⟩
    · simp only [writeUtf8Cap, if_neg hnot, List.length_take]
      omega
    · simp only [writeUtf8Cap, if_neg hnot]
      intro heq
      have := congrArg List.length heq
      simp only [List.length_take] at this
      omega
    · simp [writeUtf8Cap, hnot]
  · intro h
    unfold Lookup
    rw [h]

set_option maxRecDepth 4000 in
/-- C10 witness: a 300-byte identifier, with an empty chain so that the lookup
fails. -/
theorem lookup_error_name_truncation_witness :
    (writeUtf8Cap longName 255).1.length = 255 ∧
    (writeUtf8Cap longName 255).1 ≠ utf8Bytes longName ∧
    (writeUtf8Cap longName 255).2 = false ∧
    Lookup [] longName = .error (.missingVariable (writeUtf8Cap longName 255)) := by
  have h := lookup_error_name_truncation [] longName
  have hlen : 255 < (utf8Bytes longName).length := by decide
  exact ⟨(h.2.1 hlen).1, (h.2.1 hlen).2.1, (h.2.1 hlen).2.2, h.2.2 rfl⟩

/-- C6: a function whose rendered source starts with the non-expression
stand-in marker fails with the non-expression TypeError and performs no
partial capture — no closure record is returned. -/
theorem serializeFunction_nonexpression_error (source : String) (chain : List Frame)
    (fv : String → Option JSVal) (ee : JSVal → JSVal → Option JSVal)
    (h : strHasPrefix "[Function:" source = true) :
    serializeFunction source chain fv ee = .error SerErr.nonExpression := by
  simp [serializeFunction, serializeFunctionCode, h]

/-- C6 witness: a concrete non-expression stand-in. -/
theorem serializeFunction_nonexpression_error_witness :
    serializeFunction "[Function: f]" [] cAnalyzerX cEnvEntryId =
      .error SerErr.nonExpression :=
  serializeFunction_nonexpression_error "[Function: f]" [] cAnalyzerX cEnvEntryId rfl

/-- C5 (code bug): the extractor classifies the source text by its prefix
only, so the parenthesized arrow of the spec example is wrapped in parentheses
as claimed, but an arrow expression with a single bare parameter — which
starts with neither an open parenthesis nor the keyword function — falls into
the method-shorthand branch and is rewritten into text that is not the arrow
text wrapped in parentheses (and does not parse as a JavaScript expression). -/
theorem serializeFunctionCode_bare_arrow_miswrapped :
    serializeFunctionCode "() => x + 1" = .ok "(() => x + 1)" ∧
    serializeFunctionCode "x => x + 1" = .ok "(function x => x + 1)" :=
  ⟨rfl, rfl⟩

@[simp] theorem wfPairs_nil : wfPairs [] = [] := rfl

@[simp] theorem wfPairs_cons (np : String × JSVal) (rest : List (String × JSVal)) :
    wfPairs (np :: rest) = JSVal.arr [JSVal.str np.1, np.2] :: wfPairs rest := rfl

/-- Running the free-variable loop over well-shaped analyzer pairs whose names
all resolve and encode appends one environment entry per name to the
accumulated environment object. -/
theorem processFreeVars_wf (chain : List Frame) (ee : JSVal → JSVal → Option JSVal) :
    ∀ (names : List (String × JSVal)) (env0 : List (String × JSVal)),
    (∀ np ∈ names, ∃ v entry, Lookup chain np.1 = .ok v ∧ ee v np.2 = some entry) →
    (names.map Prod.fst).Nodup →
    (∀ m ∈ names.map Prod.fst, m ∉ env0.map Prod.fst) →
    ∃ envNew, processFreeVars chain ee (wfPairs names) env0 = .ok (env0 ++ envNew) ∧
      envNew.map Prod.fst = names.map Prod.fst ∧
      (∀ np ∈ names, ∀ v entry, Lookup chain np.1 = .ok v → ee v np.2 = some entry →
        (np.1, entry) ∈ env0 ++ envNew) := by
  intro names
  induction names with
  | nil =>
    intro env0 _ _ _
    exact ⟨[], by simp [processFreeVars], rfl, by simp⟩
  | cons np rest ih =>
    intro env0 hres hnd hfresh
    obtain ⟨v, entry, hv, he⟩ := hres np (by simp)
    have hstep : processFreeVars chain ee (wfPairs (np :: rest)) env0 =
        processFreeVars chain ee (wfPairs rest) (objSet env0 np.1 entry) := by
      simp only [wfPairs_cons, processFreeVars, asElems, List.getD_cons_zero,
        List.getD_cons_succ, forceStr, hv, he]
      rfl
    have hobj : objSet env0 np.1 entry = env0 ++ [(np.1, entry)] :=
      objSet_append_of_not_mem env0 np.1 entry (hfresh np.1 (by simp))
    simp only [List.map_cons, List.nodup_cons] at hnd
    obtain ⟨hnotin, hndrest⟩ := hnd
    obtain ⟨envNew, hrun, hkeys, hmem⟩ :=
      ih (env0 ++ [(np.1, entry)])
        (fun q hq => hres q (by simp [hq]))
        hndrest
        (by
          intro m hm
          simp only [List.map_append, List.map_cons, List.map_nil, List.mem_append,
            List.mem_singleton]
          rintro (hm1 | hm2)
          · exact hfresh m (by simp [hm]) hm1
          · exact hnotin (hm2 ▸ hm))
    refine ⟨(np.1, entry) :: envNew, ?_, ?_, ?_⟩
    · rw [hstep, hobj, hrun]
      simp
    · simp [hkeys]
    · intro q hq v' entry' hv' he'
      rcases List.mem_cons.mp hq with hq1 | hq2
      · subst hq1
        rw [hv] at hv'
        cases hv'
        rw [he] at he'
        cases he'
        simp
      · have := hmem q hq2 v' entry' hv' he'
        simpa [List.append_assoc] using this

/-- C8: when the analyzer returns the empty sequence the resulting
environment is empty, and in general the environment carries exactly one entry
per free-variable name returned by the analyzer, keyed by that name and
holding the encoded resolved value. -/
theorem serializeFunction_environment_entries (source : String) (chain : List Frame)
    (fv : String → Option JSVal) (ee : JSVal → JSVal → Option JSVal)
    (names : List (String × JSVal))
    (hcode : strHasPrefix "[Function:" source = false)
    (hfv : fv (wrapCode source) = some (JSVal.arr (wfPairs names)))
    (hnd : (names.map Prod.fst).Nodup)
    (hres : ∀ np ∈ names, ∃ v entry, Lookup chain np.1 = .ok v ∧ ee v np.2 = some entry) :
    ∃ env, serializeFunction source chain fv ee =
        .ok { code := wrapCode source, runtime := "nodejs", environment := env } ∧
      env.map Prod.fst = names.map Prod.fst ∧
      (names = [] → env = []) ∧
      (∀ np ∈ names, ∀ v entry, Lookup chain np.1 = .ok v → ee v np.2 = some entry →
        (np.1, entry) ∈ env) := by
  obtain ⟨envNew, hrun, hkeys, hmem⟩ :=
    processFreeVars_wf chain ee names [] hres hnd (by simp)
  simp only [List.nil_append] at hrun
  refine ⟨envNew, ?_, hkeys, ?_, ?_⟩
  · simp only [serializeFunction, serializeFunctionCode_of_ok source hcode, hfv, isArr,
      asElems, if_true, hrun]
    rfl
  · intro h
    subst h
    have hk : envNew.map Prod.fst = [] := by simpa using hkeys
    exact List.map_eq_nil_iff.mp hk
  · intro q hq v entry hv he
    simpa using hmem q hq v entry hv he

/-- C8 witness: the spec example — the analyzer reports the single free
variable x and the captured scope binds x to 42. -/
theorem serializeFunction_environment_entries_witness :
    ∃ env, serializeFunction "() => x + 1" [cFrameX] cAnalyzerX cEnvEntryId =
        .ok { code := "(() => x + 1)", runtime := "nodejs", environment := env } ∧
      env.map Prod.fst = ["x"] := by
  have hres : ∀ np ∈ [("x", JSVal.undef)], ∃ v entry,
      Lookup [cFrameX] np.1 = .ok v ∧ cEnvEntryId v np.2 = some entry := by
    intro np hnp
    simp only [List.mem_singleton] at hnp
    subst hnp
    exact ⟨JSVal.num 42, JSVal.num 42, rfl, rfl⟩
  obtain ⟨env, h1, h2, -, -⟩ :=
    serializeFunction_environment_entries "() => x + 1" [cFrameX] cAnalyzerX cEnvEntryId
      [("x", JSVal.undef)] rfl rfl (by simp) hres
  have hw : wrapCode "() => x + 1" = "(() => x + 1)" := rfl
  rw [hw] at h1
  exact ⟨env, h1, by simpa using h2⟩

/-- C1 (amended): a free-variable name that the lookup cannot resolve in the
function's captured lexical scope always raises the fatal missing-variable
error and aborts the whole closure; no Undefined entry is recorded, and the
code has no lenient or strict mode switch. -/
theorem serializeFunction_unresolved_always_fatal (source : String) (chain : List Frame)
    (fv : String → Option JSVal) (ee : JSVal → JSVal → Option JSVal)
    (n : String) (p : JSVal) (rest : List JSVal)
    (hcode : strHasPrefix "[Function:" source = false)
    (hfv : fv (wrapCode source) = some (JSVal.arr (JSVal.arr [JSVal.str n, p] :: rest)))
    (hn : chainLookup n chain = .nullRes) :
    serializeFunction source chain fv ee =
      .error (.missingVariable (writeUtf8Cap n 255)) := by
  simp only [serializeFunction, serializeFunctionCode_of_ok source hcode, hfv, isArr,
    asElems, if_true, processFreeVars, List.getD_cons_zero, List.getD_cons_succ, forceStr,
    Lookup_of_nullRes chain n hn]

/-- C1 witness for the amended claim: the analyzer reports x and the captured
chain is empty, so the lookup fails and the whole serialization aborts with
the missing-variable error. -/
theorem serializeFunction_unresolved_always_fatal_witness :
    serializeFunction "() => y" [] cAnalyzerX cEnvEntryId =
      .error (SerErr.missingVariable (writeUtf8Cap "x" 255)) :=
  serializeFunction_unresolved_always_fatal "() => y" [] cAnalyzerX cEnvEntryId
    "x" JSVal.undef [] rfl rfl rfl

/-- C1 counterexample to the claim as stated: an unresolved free variable is
not recorded as an Undefined entry with serialization continuing — the call
returns the missing-variable error and no closure, and the code offers no
lenient mode under which it would do otherwise. -/
theorem serializeFunction_unresolved_cex :
    serializeFunction "() => x" [] cAnalyzerX cEnvEntryId =
      .error (SerErr.missingVariable (writeUtf8Cap "x" 255)) := rfl

/-- C2 (amended): the TypeError-class analyzer-result failure is raised if and
only if the analyzer's result is not a sequence; element shapes are not
validated (the element-checking loop is commented out in the source), so a
sequence containing non-string identifier elements raises no analyzer-result
error. -/
theorem serializeFunction_analyzer_shape_check (source : String) (chain : List Frame)
    (fv : String → Option JSVal) (ee : JSVal → JSVal → Option JSVal) (r : JSVal)
    (hcode : strHasPrefix "[Function:" source = false)
    (hfv : fv (wrapCode source) = some r) :
    (serializeFunction source chain fv ee = .error SerErr.freeVarsNotArray ↔
      isArr r = false) := by
  simp only [serializeFunction, serializeFunctionCode_of_ok source hcode, hfv]
  cases hr : isArr r with
  | true =>
    simp only [hr, if_true, iff_false, Bool.true_eq_false]
    intro h
    split at h
    · rename_i e heq
      simp only [Except.error.injEq] at h
      subst h
      exact processFreeVars_ne_arrayErr chain ee _ _ heq
    · simp at h
  | false =>
    simp [hr]

/-- C2 witness for the amended claim: an analyzer returning a plain string
instead of a sequence triggers the analyzer-result TypeError. -/
theorem serializeFunction_analyzer_shape_check_witness :
    serializeFunction "() => x" [] cAnalyzerNotArr cEnvEntryId =
      .error SerErr.freeVarsNotArray :=
  (serializeFunction_analyzer_shape_check "() => x" [] cAnalyzerNotArr cEnvEntryId
    (JSVal.str "x") rfl rfl).mpr rfl

/-- C2 counterexample to the claim as stated: an analyzer result that is a
sequence containing the non-string element 5 is malformed in the spec's sense,
yet it passes the only shape check the code performs (IsArray) and no
analyzer-result TypeError is raised — serialization proceeds into the lookup
machinery instead. -/
theorem analyzer_element_check_cex :
    specAnalyzerMalformed (JSVal.arr [JSVal.num 5]) = true ∧
    isArr (JSVal.arr [JSVal.num 5]) = true ∧
    serializeFunction "() => x" [] cAnalyzerBadElem cEnvEntryId ≠
      .error SerErr.freeVarsNotArray := by
  refine ⟨rfl, rfl, ?_⟩
  intro h
  rw [show serializeFunction "() => x" [] cAnalyzerBadElem cEnvEntryId =
      .error (SerErr.missingVariable (writeUtf8Cap "" 255)) from rfl] at h
  simp at h

/-- C3 (amended): the entry point demands four mandatory arguments — the
function, the free-variables analyzer, the env-entry serializer, and the
env-entry cache; a call passing only a function and an analyzer is rejected by
validation with the missing env-entry serializer TypeError, while four
well-typed arguments pass validation. -/
theorem serializeClosure_four_mandatory_args (f a e c : JSVal)
    (hf : isFuncV f = true) (ha : isFuncV a = true) (he : isFuncV e = true)
    (hc : isUndefV c = false) :
    serializeClosureCheck [f, a] = some SerErr.missingEnvEntrySerializer ∧
    serializeClosureCheck [f, a, e, c] = none := by
  have hfu := isFuncV_not_undef hf
  have hau := isFuncV_not_undef ha
  have heu := isFuncV_not_undef he
  constructor
  · simp [serializeClosureCheck, hf, ha, hfu, hau]
  · simp [serializeClosureCheck, hf, ha, he, hfu, hau, heu, hc]

/-- C3 witness for the amended claim, at concrete arguments. -/
theorem serializeClosure_four_mandatory_args_witness :
    serializeClosureCheck [JSVal.fn 0, JSVal.fn 1] =
      some SerErr.missingEnvEntrySerializer ∧
    serializeClosureCheck [JSVal.fn 0, JSVal.fn 1, JSVal.fn 2, JSVal.objRef 3] = none :=
  serializeClosure_four_mandatory_args (JSVal.fn 0) (JSVal.fn 1) (JSVal.fn 2)
    (JSVal.objRef 3) rfl rfl rfl rfl

/-- C3 counterexample to the claim as stated: a call supplying only a function
and an analyzer does not pass input validation and proceed to capture — it
aborts with the missing env-entry serializer TypeError. -/
theorem serializeClosure_two_args_cex :
    serializeClosure [JSVal.fn 0, JSVal.fn 1] "() => 1" [] cAnalyzerX cEnvEntryId =
      .error SerErr.missingEnvEntrySerializer := rfl

/-- C9: argument validation at the public boundary proceeds in positional
order: a missing, undefined or non-function first argument aborts with the
corresponding typed error before any capture work begins (the result does not
depend on the source text, the scope chain, or the callbacks), and likewise
for the free-variables analyzer, the env-entry serializer, and the env-entry
cache (whose only check is presence). -/
theorem serializeClosure_argument_validation (args : List JSVal) (source : String)
    (chain : List Frame) (fv : String → Option JSVal)
    (ee : JSVal → JSVal → Option JSVal) :
    (isUndefV (args.getD 0 JSVal.undef) = true →
        serializeClosure args source chain fv ee = .error SerErr.missingFunction) ∧
    (isUndefV (args.getD 0 JSVal.undef) = false →
        isFuncV (args.getD 0 JSVal.undef) = false →
        serializeClosure args source chain fv ee = .error SerErr.functionNotFunction) ∧
    (isFuncV (args.getD 0 JSVal.undef) = true →
        isUndefV (args.getD 1 JSVal.undef) = true →
        serializeClosure args source chain fv ee = .error SerErr.missingFreeVars) ∧
    (isFuncV (args.getD 0 JSVal.undef) = true →
        isUndefV (args.getD 1 JSVal.undef) = false →
        isFuncV (args.getD 1 JSVal.undef) = false →
        serializeClosure args source chain fv ee = .error SerErr.freeVarsNotFunction) ∧
    (isFuncV (args.getD 0 JSVal.undef) = true →
        isFuncV (args.getD 1 JSVal.undef) = true →
        isUndefV (args.getD 2 JSVal.undef) = true →
        serializeClosure args source chain fv ee =
          .error SerErr.missingEnvEntrySerializer) ∧
    (isFuncV (args.getD 0 JSVal.undef) = true →
        isFuncV (args.getD 1 JSVal.undef) = true →
        isUndefV (args.getD 2 JSVal.undef) = false →
        isFuncV (args.getD 2 JSVal.undef) = false →
        serializeClosure args source chain fv ee =
          .error SerErr.envEntrySerializerNotFunction) ∧
    (isFuncV (args.getD 0 JSVal.undef) = true →
        isFuncV (args.getD 1 JSVal.undef) = true →
        isFuncV (args.getD 2 JSVal.undef) = true →
        isUndefV (args.getD 3 JSVal.undef) = true →
        serializeClosure args source chain fv ee =
          .error SerErr.missingEnvEntryCache) := by
  refine ⟨?_, ?_, ?_, ?_, ?_, ?_, ?_⟩
  · intro h0
    simp only [List.getD_eq_getElem?_getD] at h0
    simp [serializeClosure, serializeClosureCheck, h0]
  · intro h0 hf0
    have hl0 : ¬ args.length < 1 := by have := len_gt_of_not_undef h0; omega
    simp only [List.getD_eq_getElem?_getD] at h0 hf0
    simp [serializeClosure, serializeClosureCheck, h0, hf0, hl0]
  · intro hf0 hu1
    have h0 := isFuncV_not_undef hf0
    have hl0 : ¬ args.length < 1 := by have := len_gt_of_not_undef h0; omega
    simp only [List.getD_eq_getElem?_getD] at hf0 h0 hu1
    simp [serializeClosure, serializeClosureCheck, hf0, h0, hl0, hu1]
  · intro hf0 hu1 hf1
    have h0 := isFuncV_not_undef hf0
    have hl0 : ¬ args.length < 1 := by have := len_gt_of_not_undef h0; omega
    have hl1 : ¬ args.length < 2 := by have := len_gt_of_not_undef hu1; omega
    simp only [List.getD_eq_getElem?_getD] at hf0 h0 hu1 hf1
    simp [serializeClosure, serializeClosureCheck, hf0, h0, hl0, hu1, hf1, hl1]
  · intro hf0 hf1 hu2
    have h0 := isFuncV_not_undef hf0
    have h1 := isFuncV_not_undef hf1
    have hl0 : ¬ args.length < 1 := by have := len_gt_of_not_undef h0; omega
    have hl1 : ¬ args.length < 2 := by have := len_gt_of_not_undef h1; omega
    simp only [List.getD_eq_getElem?_getD] at hf0 h0 hf1 h1 hu2
    simp [serializeClosure, serializeClosureCheck, hf0, h0, hl0, hf1, h1, hl1, hu2]
  · intro hf0 hf1 hu2 hf2
    have h0 := isFuncV_not_undef hf0
    have h1 := isFuncV_not_undef hf1
    have hl0 : ¬ args.length < 1 := by have := len_gt_of_not_undef h0; omega
    have hl1 : ¬ args.length < 2 := by have := len_gt_of_not_undef h1; omega
    have hl2 : ¬ args.length < 3 := by have := len_gt_of_not_undef hu2; omega
    simp only [List.getD_eq_getElem?_getD] at hf0 h0 hf1 h1 hu2 hf2
    simp [serializeClosure, serializeClosureCheck, hf0, h0, hl0, hf1, h1, hl1, hu2, hf2,
      hl2]
  · intro hf0 hf1 hf2 hu3
    have h0 := isFuncV_not_undef hf0
    have h1 := isFuncV_not_undef hf1
    have h2 := isFuncV_not_undef hf2
    have hl0 : ¬ args.length < 1 := by have := len_gt_of_not_undef h0; omega
    have hl1 : ¬ args.length < 2 := by have := len_gt_of_not_undef h1; omega
    have hl2 : ¬ args.length < 3 := by have := len_gt_of_not_undef h2; omega
    simp only [List.getD_eq_getElem?_getD] at hf0 h0 hf1 h1 hf2 h2 hu3
    simp [serializeClosure, serializeClosureCheck, hf0, h0, hl0, hf1, h1, hl1, hf2, h2,
      hl2, hu3]

/-- C9 witness: a numeric first argument is rejected as not a Function before
any capture work. -/
theorem serializeClosure_argument_validation_witness :
    serializeClosure [JSVal.num 3] "" [] cAnalyzerX cEnvEntryId =
      .error SerErr.functionNotFunction :=
  (serializeClosure_argument_validation [JSVal.num 3] "" [] cAnalyzerX cEnvEntryId).2.1
    rfl rfl

end nativeruntime
